import Mathlib

/-!
# Verification of the vuex-orm query/mutation engine (`src/query/Query.ts`)

This file shallowly embeds the query/mutation engine of the repository and
proves or refutes the frozen claims about it.

Conventions of the embedding:

* JavaScript objects used as keyed tables (`state.data`, `Data.Instances`,
  `Data.Records`) are represented as association lists `List (Nat × _)` whose
  list order is the object's key order.  JS object keys are strings; every key
  occurring here is the decimal string of a numeric primary key (JS coerces a
  numeric index to that string on property access), so a key is represented by
  the numeral itself.  The example tables keep keys in ascending order, which
  is exactly the JS `Object.keys` order for integer-like keys.
* The engine under verification is `Query`.  Its external collaborators
  (`Model` metadata, `Filter`, `Processor`, `Loader`, `Rollcaller`) are not
  part of `src/`; where a claim needs them they are modelled from the spec and
  marked as such, or abstracted into parameters.
* Lifecycle hooks: the combined verdict of `executeBeforeCreateHook` /
  `executeBeforeUpdateHook` / `executeBeforeDeleteHook` ("did the hook chain
  return `false` for this model?") is abstracted into a `Rec → Bool` veto
  predicate in the persistence pipeline; the global hook registry itself
  (`Query.hooks`, `executeGlobalBeforeMutationHooks`, `cleanGlobalHooksOn`)
  is embedded faithfully further below for the hook claims.
-/

set_option linter.unusedVariables false

namespace VuexOrm

/-- A hydrated record (`Data.Instance`).  The single base model of the setting
has a numeric primary key field `id`, a `name` field, and the bookkeeping
`$id` field (here `sid`).  Hydration (`new model(record)`) copies fields. -/
structure Rec where
  id : Nat
  name : String
  sid : Nat
  deriving DecidableEq, Repr

/-- `state.data`: the keyed table of instances. -/
abbrev Table := List (Nat × Rec)

/-- JS property read `obj[k]`: first entry with the key, else `undefined`. -/
def objLookup {α : Type} (k : Nat) : List (Nat × α) → Option α
  | [] => none
  | (k', v) :: t => if k' = k then some v else objLookup k t

/-- JS property write `obj[k] = v`: replaces the value in place if the key
exists, otherwise appends the new key. -/
def objSet (k : Nat) (v : Rec) (t : Table) : Table :=
  if (objLookup k t).isSome then
    t.map (fun kv => if kv.1 = k then (k, v) else kv)
  else
    t ++ [(k, v)]

/-- JS `delete obj[k]`. -/
def objDelete (k : Nat) (t : Table) : Table :=
  t.filter (fun kv => kv.1 ≠ k)

/-- JS object spread `{ ...a, ...b }`: keys of `a` keep their position, values
overridden by `b` where present; keys only in `b` are appended. -/
def objMerge (a b : Table) : Table :=
  a.map (fun kv => (kv.1, (objLookup kv.1 b).getD kv.2))
    ++ b.filter (fun kv => (objLookup kv.1 a).isNone)

/-- `new Set(values)`: deduplicates keeping the first occurrence of a value. -/
def jsSetAux (seen : List Nat) : List Nat → List Nat
  | [] => []
  | x :: xs => if seen.contains x then jsSetAux seen xs else x :: jsSetAux (x :: seen) xs

/-- Set construction used by `setIdFilter` / `setJoinedIdFilter`. -/
def jsSet (l : List Nat) : List Nat := jsSetAux [] l

/-! ## The query builder and the identity index -/

/-- The primary key of the model (`Model.primaryKey`).  The model registry is
external to `src/`; the setting is a single model with the scalar primary key
`"id"`. -/
def modelPrimaryKey : String := "id"

/-- The value of a where clause: a scalar or an array (membership). -/
inductive WhereVal where
  | one (v : Nat)
  | many (vs : List Nat)
  deriving DecidableEq, Repr

/-- `Options.Where`'s `boolean` tag. -/
inductive WhereBoolTag where
  | and
  | or
  deriving DecidableEq, Repr, BEq

/-- An entry of `Query.wheres` (`Options.Where`). -/
structure WhereClause where
  field : String
  value : WhereVal
  boolTag : WhereBoolTag
  deriving DecidableEq, Repr

/-- The per-query accumulated state of `Query` that the claims exercise:
`idFilter`, `cancelIdFilter`, `joinedIdFilter`, `wheres`, offset/limit and the
base-entity flag.  `null` is `none`; a JS `Set` is its (deduplicated,
insertion-ordered) value list. -/
structure QueryState where
  idFilter : Option (List Nat) := none
  cancelIdFilter : Bool := false
  joinedIdFilter : Option (List Nat) := none
  wheres : List WhereClause := []
  offsetNumber : Nat := 0
  limitNumber : Nat := 2 ^ 53 - 1
  appliedOnBase : Bool := true
  deriving Repr

/-- A fresh query instance on the base entity. -/
def initQuery : QueryState := {}

/-- `where(f, value)` wraps a non-array value into a singleton array in
`setIdFilter`; `valuesOf` is that wrapping. -/
def valuesOf : WhereVal → List Nat
  | .one v => [v]
  | .many vs => vs

/-- `isIdfilterable`. -/
def isIdfilterable (q : QueryState) (f : String) : Bool :=
  f == modelPrimaryKey && !q.cancelIdFilter

/-- `setIdFilter`: initialize the set, or intersect with the new values. -/
def setIdFilter (q : QueryState) (value : WhereVal) : QueryState :=
  let values := valuesOf value
  match q.idFilter with
  | none => { q with idFilter := some (jsSet values) }
  | some s => { q with idFilter := some (jsSet (values.filter (fun v => s.contains v))) }

/-- `setJoinedIdFilter`: initialize the set, or intersect with the new values. -/
def setJoinedIdFilter (q : QueryState) (values : List Nat) : QueryState :=
  match q.joinedIdFilter with
  | none => { q with joinedIdFilter := some (jsSet values) }
  | some s => { q with joinedIdFilter := some (jsSet (values.filter (fun v => s.contains v))) }

/-- `where(field, value)`: narrow the id filter when applicable, and always
record the clause with boolean `and`. -/
def whereQ (q : QueryState) (f : String) (v : WhereVal) : QueryState :=
  let q := if isIdfilterable q f then setIdFilter q v else q
  { q with wheres := q.wheres ++ [⟨f, v, .and⟩] }

/-- `orWhere(field, value)`: cancel id filter usage, record an `or` clause. -/
def orWhereQ (q : QueryState) (f : String) (v : WhereVal) : QueryState :=
  { q with cancelIdFilter := true, wheres := q.wheres ++ [⟨f, v, .or⟩] }

/-- `whereId(value)`. -/
def whereIdQ (q : QueryState) (v : Nat) : QueryState :=
  whereQ q modelPrimaryKey (.one v)

/-- `whereIdIn(values)`. -/
def whereIdInQ (q : QueryState) (vs : List Nat) : QueryState :=
  whereQ q modelPrimaryKey (.many vs)

/-- `whereFk(field, value)`: joined id filter when the field is the primary
key, else a normal `where` with the array value. -/
def whereFkQ (q : QueryState) (f : String) (vs : List Nat) : QueryState :=
  if f = modelPrimaryKey then setJoinedIdFilter q vs
  else whereQ q f (.many vs)

/-- `finalizeIdFilter`: when the id filter was cancelled but holds values,
re-express them as a membership where clause and drop the filter. -/
def finalizeIdFilter (q : QueryState) : QueryState :=
  match q.idFilter with
  | none => q
  | some s =>
    if !q.cancelIdFilter then q
    else { (whereQ q modelPrimaryKey (.many s)) with idFilter := none }

/-- `getIdsToLookup`: intersection of both filters if both set, whichever is
set if only one, otherwise every key of the table. -/
def getIdsToLookup (q : QueryState) (tbl : Table) : List Nat :=
  match q.idFilter, q.joinedIdFilter with
  | some f, some j => f.filter (fun id => j.contains id)
  | some f, none => f
  | none, some j => j
  | none, none => tbl.map Prod.fst

/-! ## The selection pipeline -/

/-- The value of a record's field as seen by the where comparator.  Only the
numeric fields are addressable by where clauses in this setting; an unknown
field reads as `undefined` and never compares equal. -/
def getFieldVal (r : Rec) (f : String) : Option Nat :=
  if f = "id" then some r.id else none

/-- Modelled from the spec: the external `Filter` comparator for a non-closure
where value — strict equality for a scalar, membership for an array. -/
def matchW (r : Rec) (w : WhereClause) : Bool :=
  match getFieldVal r w.field with
  | none => false
  | some x =>
    match w.value with
    | .one v => x == v
    | .many vs => vs.contains x

/-- Modelled from the spec: the external `Filter.where` boolean evaluation of
the ordered and/or clauses — a record passes when all `and` clauses hold or
some `or` clause holds; with no clauses every record passes. -/
def whereMatches (ws : List WhereClause) (r : Rec) : Bool :=
  if ws.isEmpty then true
  else
    let ands := ws.filter (fun w => w.boolTag == WhereBoolTag.and)
    let ors := ws.filter (fun w => w.boolTag == WhereBoolTag.or)
    (!ands.isEmpty && ands.all (matchW r)) || (!ors.isEmpty && ors.any (matchW r))

/-- `filterWhere` (`Filter.where`, modelled from the spec as above). -/
def filterWhere (q : QueryState) (rs : List Rec) : List Rec :=
  rs.filter (whereMatches q.wheres)

/-- `filterLimit` (`Filter.limit`, modelled from the spec: offset/limit
slicing `records.slice(offset, offset + limit)`). -/
def filterLimit (q : QueryState) (rs : List Rec) : List Rec :=
  (rs.drop q.offsetNumber).take q.limitNumber

/-- The body of `records()` after `finalizeIdFilter` has run: look every
resolved key up in the table, hydrate, and drop records of foreign concrete
type on a derived-entity query.  A key that misses the table hydrates
`undefined` into a default-valued model instance (`new model(undefined)`);
the external model's default instance is the parameter `dflt`.  `instOf r`
stands for `r instanceof this.model`. -/
def recordsOf (dflt : Rec) (instOf : Rec → Bool) (q' : QueryState) (tbl : Table) :
    List Rec :=
  ((getIdsToLookup q' tbl).map (fun id =>
      let hydrated :=
        match objLookup id tbl with
        | some m => m
        | none => dflt
      if !q'.appliedOnBase && !instOf hydrated then none else some hydrated)).filterMap
    (fun x => x)

/-- `records()`: `finalizeIdFilter` mutates the query in place (recorded here
by threading the finalized state), then the collection is materialized. -/
def recordsQ (dflt : Rec) (instOf : Rec → Bool) (q : QueryState) (tbl : Table) :
    List Rec :=
  recordsOf dflt instOf (finalizeIdFilter q) tbl

/-- `select()`: the staged pipeline.  Because `records()` mutated the query,
the later stages read the finalized state (in particular, the where clause
pushed by `finalizeIdFilter` participates in `filterWhere`).  The
`has`-constraint stage (`Rollcaller.applyConstraints`) is the identity
because no relation constraints are used, every retrieve hook stage is the
identity because the hook registry is empty, and the order-by stage (external
`Filter.orderBy`, a stable multi-key sort) is the identity because no orders
are accumulated — all three collaborators are external to `src/`. -/
def selectQ (dflt : Rec) (instOf : Rec → Bool) (q : QueryState) (tbl : Table) : List Rec :=
  let q' := finalizeIdFilter q
  filterLimit q' (filterWhere q' (recordsOf dflt instOf q' tbl))

/-- `get()`: `collect` over the selected records; with no eager-loaded
relations `collect` returns the collection unchanged. -/
def getQ (dflt : Rec) (instOf : Rec → Bool) (q : QueryState) (tbl : Table) : List Rec :=
  selectQ dflt instOf q tbl

/-- Modelled from the spec: the result of a full-table scan filtered by the
equivalent boolean where-expression, then sliced by offset/limit — the
reference semantics an indexed `get()` must refine. -/
def fullScanSelect (q : QueryState) (tbl : Table) : List Rec :=
  filterLimit q ((tbl.map Prod.snd).filter (whereMatches q.wheres))

/-! ## The persistence pipeline -/

/-- A plain partial record (`Data.Record`) as it arrives in a normalized
batch: any subset of the model's fields (including `$id`). -/
structure RecPatch where
  id : Option Nat := none
  name : Option String := none
  sid : Option Nat := none
  deriving DecidableEq, Repr

/-- A normalized per-entity batch (`Data.Records`): partial records keyed by
their index id, as produced by the external `Processor`. -/
abbrev Records := List (Nat × RecPatch)

/-- JS spread `{ ...inst, ...p }` of an instance and a partial record. -/
def mergePatch (inst : Rec) (p : RecPatch) : Rec :=
  { id := p.id.getD inst.id, name := p.name.getD inst.name, sid := p.sid.getD inst.sid }

/-- `hydrate(record)` = `new model(record)`: fields present in the record are
copied, absent fields take the model's defaults.  The model class is external
to `src/`; its default instance is the parameter `dflt`. -/
def hydrateR (dflt : Rec) (p : RecPatch) : Rec :=
  mergePatch dflt p

/-- `hydrateMany(records)`. -/
def hydrateMany (dflt : Rec) (records : Records) : Table :=
  records.map (fun kp => (kp.1, hydrateR dflt kp.2))

/-- `emptyState()`: clear everything on a base-entity query, only instances
of the derived model (`instOf`, standing for `instanceof this.model`) on a
derived-entity query. -/
def emptyState (appliedOnBase : Bool) (instOf : Rec → Bool) (tbl : Table) : Table :=
  if appliedOnBase then []
  else tbl.filter (fun kv => !instOf kv.2)

/-- `insertMany(records)`: hydrate, run the before-create hooks
(`executeBeforeCreateHookOnModels` deletes every vetoed model, `bcVeto` is the
combined hook verdict), merge into the state, return the collection. -/
def insertMany (dflt : Rec) (bcVeto : Rec → Bool) (records : Records) (tbl : Table) :
    List Rec × Table :=
  let instances := hydrateMany dflt records
  let instances := instances.filter (fun kv => !bcVeto kv.2)
  (instances.map Prod.snd, objMerge tbl instances)

/-- `createMany(records)`: like `insertMany` but the create callback empties
the state before merging the instances. -/
def createMany (dflt : Rec) (bcVeto : Rec → Bool) (appliedOnBase : Bool)
    (instOf : Rec → Bool) (records : Records) (tbl : Table) : List Rec × Table :=
  let instances := hydrateMany dflt records
  let instances := instances.filter (fun kv => !bcVeto kv.2)
  (instances.map Prod.snd, objMerge (emptyState appliedOnBase instOf tbl) instances)

/-- `combine(records)`: merge each partial record onto the existing instance
with the same key; keys absent from the state are skipped. -/
def combine (records : Records) (tbl : Table) : Table :=
  records.filterMap (fun kp =>
    (objLookup kp.1 tbl).map (fun inst => (kp.1, mergePatch inst kp.2)))

/-- `Model.getIndexIdFromRecord` (external model metadata): the index id
derived from the primary key field. -/
def getIndexIdFromRecord (r : Rec) : Nat := r.id

/-- One key's step of `updateIndexes`: whenever the instance's
primary-key-derived id differs from its key, set its `$id`, store it under
the new key and delete the old key — all on the batch object itself.  (The
`none` arm is unreachable: only already-processed keys are ever removed from
the accumulator.) -/
def updateIndexesStep (acc : Table) (key : Nat) : Table :=
  match objLookup key acc with
  | none => acc
  | some inst =>
    let id := getIndexIdFromRecord inst
    if key = id then acc
    else objDelete key (objSet id { inst with sid := id } acc)

/-- `updateIndexes(instances)`: reduce over a snapshot of the batch's keys. -/
def updateIndexes (instances : Table) : Table :=
  (instances.map Prod.fst).foldl updateIndexesStep instances

/-- The result of `commitUpdate`: the returned collection, the new
`state.data`, and the (aliased, mutated) batch object itself. -/
structure CommitUpdateResult where
  collection : List Rec
  newData : Table
  instances : Table
  deriving DecidableEq, Repr

/-- `commitUpdate(instances)`: rekey the batch, run the before-update hooks
(deleting vetoed models; `buVeto` is the combined verdict), spread-merge the
batch over the state, and return the batch as a collection. -/
def commitUpdate (buVeto : Rec → Bool) (instances : Table) (tbl : Table) :
    CommitUpdateResult :=
  let instances := updateIndexes instances
  let instances := instances.filter (fun kv => !buVeto kv.2)
  ⟨instances.map Prod.snd, objMerge tbl instances, instances⟩

/-- `updateMany(records)`. -/
def updateMany (buVeto : Rec → Bool) (records : Records) (tbl : Table) :
    List Rec × Table :=
  let r := commitUpdate buVeto (combine records tbl) tbl
  (r.collection, r.newData)

/-- `insertOrUpdateMany(records)`: partition by key existence, insert the new
keys, update the existing ones, and concatenate the two collections. -/
def insertOrUpdateMany (dflt : Rec) (bcVeto buVeto : Rec → Bool) (records : Records)
    (tbl : Table) : List Rec × Table :=
  let toBeUpdated := records.filter (fun kp => (objLookup kp.1 tbl).isSome)
  let toBeInserted := records.filter (fun kp => !(objLookup kp.1 tbl).isSome)
  let ins := insertMany dflt bcVeto toBeInserted tbl
  let upd := updateMany buVeto toBeUpdated ins.2
  (ins.1 ++ upd.1, upd.2)

/-- The `data` argument of `processUpdate`: a partial record or a mutating
closure (`UpdateClosure`, modelled as the function it applies). -/
inductive UpdateData where
  | patch (p : RecPatch)
  | closure (f : Rec → Rec)

/-- `processUpdate(data, instance)`: apply the closure in place, or hydrate
the spread-merge of the instance and the partial record (the single-model
setting has no inheritance branch to force a model class). -/
def processUpdate (data : UpdateData) (inst : Rec) : Rec :=
  match data with
  | .closure f => f inst
  | .patch p => mergePatch inst p

/-- `updateById(data, id)`: soft miss returns `null`; otherwise commit a
one-entry batch.  The returned item is read out of the batch object *after*
`commitUpdate` mutated it, under the original id. -/
def updateById (buVeto : Rec → Bool) (data : UpdateData) (id : Nat) (tbl : Table) :
    Option Rec × Table :=
  match objLookup id tbl with
  | none => (none, tbl)
  | some inst =>
    let instances : Table := [(id, processUpdate data inst)]
    let r := commitUpdate buVeto instances tbl
    (objLookup id r.instances, r.newData)

/-- `updateByCondition(data, condition)`: build the batch from every record
matching the predicate, then commit it. -/
def updateByCondition (buVeto : Rec → Bool) (data : UpdateData)
    (condition : Rec → Bool) (tbl : Table) : List Rec × Table :=
  let instances := tbl.filterMap (fun kv =>
    if condition kv.2 then some (kv.1, processUpdate data kv.2) else none)
  let r := commitUpdate buVeto instances tbl
  (r.collection, r.newData)

/-- `PersistOptions`: the per-entity method overrides. -/
structure PersistOptions where
  create : Option (List String) := none
  insert : Option (List String) := none
  update : Option (List String) := none
  insertOrUpdate : Option (List String) := none

/-- The persist method selector values. -/
inductive PMethod where
  | create
  | insert
  | update
  | insertOrUpdate
  deriving DecidableEq, Repr, BEq

/-- `options.x && options.x.includes(entity)`. -/
def optIncludes : Option (List String) → String → Bool
  | none, _ => false
  | some l, e => l.contains e

/-- `getPersistMethod(entity, method, options)`. -/
def getPersistMethod (entity : String) (method : PMethod) (options : PersistOptions) :
    PMethod :=
  if optIncludes options.create entity then .create
  else if optIncludes options.insert entity then .insert
  else if optIncludes options.update entity then .update
  else if optIncludes options.insertOrUpdate entity then .insertOrUpdate
  else method

/-- `persist(data, method, options)` in the single-entity setting: the
external `Processor.normalize` has already turned the input into the
per-entity batch `normalized`; an empty normalized input empties the state
when the method is `create` and returns the empty collections, otherwise the
batch is routed to the `~Many` method selected by `getPersistMethod`. -/
def persist (dflt : Rec) (bcVeto buVeto : Rec → Bool) (appliedOnBase : Bool)
    (instOf : Rec → Bool) (entity : String) (normalized : Records) (method : PMethod)
    (options : PersistOptions) (tbl : Table) : List Rec × Table :=
  if normalized.isEmpty then
    if method == PMethod.create then ([], emptyState appliedOnBase instOf tbl)
    else ([], tbl)
  else
    match getPersistMethod entity method options with
    | .create => createMany dflt bcVeto appliedOnBase instOf normalized tbl
    | .insert => insertMany dflt bcVeto normalized tbl
    | .update => updateMany buVeto normalized tbl
    | .insertOrUpdate => insertOrUpdateMany dflt bcVeto buVeto normalized tbl

/-- The `data` argument of `update`: an array of partial records, a closure,
or a single partial record. -/
inductive UpdateInput where
  | recsArr (rs : List RecPatch)
  | closure (f : Rec → Rec)
  | record (p : RecPatch)

/-- The `condition` argument of `update` (`UpdateCondition`): absent, a
predicate closure, or a scalar id.  (String conditions behave like numeric
ones; only numeric scalars occur in this setting.) -/
inductive UpdateCond where
  | noCond
  | pred (p : Rec → Bool)
  | scalar (n : Nat)

/-- The error thrown for a closure update without a condition. -/
def updClosureErr : String :=
  "You must specify `where` to update records by specifying `data` as a closure."

/-- The error thrown for a scalar condition against a composite-key model. -/
def updCompositeErr : String :=
  "You can't specify `where` value as `string` or `number` when you have a composite key defined in your model."

/-- The possible success payloads of `update`. -/
inductive UpdateOut where
  | collections (c : List Rec)
  | collection (c : List Rec)
  | item (i : Option Rec)

/-- `update(data, condition, options)`: the dispatch over the call shapes.
A thrown `Error` is the `Except.error` case, which carries no table — the
checks run before any mutation.  JS truthiness of the condition is modelled
exactly: the scalar `0` is falsy, so `if (!condition)` also takes it.
`primaryKeyIsComposite` stands for `Array.isArray(this.model.primaryKey)`;
`normalizeFn` stands for the external `Processor.normalize`. -/
def update (dflt : Rec) (primaryKeyIsComposite : Bool) (bcVeto buVeto : Rec → Bool)
    (appliedOnBase : Bool) (instOf : Rec → Bool) (entity : String)
    (normalizeFn : UpdateInput → Records) (data : UpdateInput) (cond : UpdateCond)
    (options : PersistOptions) (tbl : Table) : Except String (UpdateOut × Table) :=
  match data with
  | .recsArr _ =>
    let r := persist dflt bcVeto buVeto appliedOnBase instOf entity
      (normalizeFn data) .update options tbl
    .ok (.collections r.1, r.2)
  | .closure f =>
    match cond with
    | .noCond => .error updClosureErr
    | .pred p =>
      let r := updateByCondition buVeto (.closure f) p tbl
      .ok (.collection r.1, r.2)
    | .scalar n =>
      if n = 0 then .error updClosureErr
      else
        let r := updateById buVeto (.closure f) n tbl
        .ok (.item r.1, r.2)
  | .record p =>
    match cond with
    | .pred pc =>
      let r := updateByCondition buVeto (.patch p) pc tbl
      .ok (.collection r.1, r.2)
    | .noCond =>
      let r := persist dflt bcVeto buVeto appliedOnBase instOf entity
        (normalizeFn data) .update options tbl
      .ok (.collections r.1, r.2)
    | .scalar n =>
      if n = 0 then
        let r := persist dflt bcVeto buVeto appliedOnBase instOf entity
          (normalizeFn data) .update options tbl
        .ok (.collections r.1, r.2)
      else if primaryKeyIsComposite then .error updCompositeErr
      else
        let r := updateById buVeto (.patch p) n tbl
        .ok (.item r.1, r.2)

/-- Whether an `Except` result is the error case. -/
def exceptIsError : Except String (UpdateOut × Table) → Bool
  | .error _ => true
  | .ok _ => false

/-- `deleteByCondition(condition)`: one pass through `filterData` — a record
is kept when the predicate rejects it or a before-delete hook vetoed
(`bdVeto` is the combined verdict of `executeBeforeDeleteHook`), otherwise it
is collected into the deleted collection (in iteration order) and dropped. -/
def deleteByCondition (bdVeto condition : Rec → Bool) (tbl : Table) :
    List Rec × Table :=
  tbl.foldl (fun acc kv =>
    if !condition kv.2 then (acc.1, acc.2 ++ [kv])
    else if bdVeto kv.2 then (acc.1, acc.2 ++ [kv])
    else (acc.1 ++ [kv.2], acc.2)) ([], [])

/-! ## The global hook registry and before-mutation hook execution

The registry entries (`{ id, callback, once }`) are embedded with the
callback abstracted to its observable behaviour on a model: `vetoes m = true`
means the callback returns `false` for `m` (any other return value is
non-`false`). -/

/-- A registered global hook. -/
structure GHook where
  id : Nat
  once : Bool
  vetoes : Rec → Bool

/-- The result of one global before-mutation execution: whether the function
returned `false`, the ids of the callbacks that were invoked (in order), and
the registry afterwards. -/
structure GlobalHookResult where
  vetoed : Bool
  invoked : List Nat
  hooks : List GHook

/-- `hooks.some((hook) => callback(hook.callback) === false ? false : true)`,
instrumented with the list of invoked callback ids: `Array.some` invokes the
callbacks left to right and stops at the first one whose predicate value is
`true`, i.e. at the first callback that does **not** return `false`. -/
def someHooks (m : Rec) : List GHook → Bool × List Nat
  | [] => (false, [])
  | h :: hs =>
    if h.vetoes m then
      let r := someHooks m hs
      (r.1, h.id :: r.2)
    else (true, [h.id])

/-- `executeGlobalBeforeMutationHooks(on, callback)`: empty registry returns
`undefined` untouched; otherwise run the `some` aggregation, prune the
`once`-flagged entries (`cleanGlobalHooksOn`), and return `false` only when
`some` returned `false` — that is, only when every callback was invoked and
every one returned `false`. -/
def executeGlobalBeforeMutationHooks (m : Rec) (hooks : List GHook) : GlobalHookResult :=
  if hooks.isEmpty then ⟨false, [], hooks⟩
  else
    let r := someHooks m hooks
    ⟨r.1 == false, r.2, hooks.filter (fun h => !h.once)⟩

/-- `executeBeforeCreateHook(model)` (the before-update variant is
structurally identical): a local hook returning `false` vetoes immediately
without touching the global registry; otherwise the global hooks run.
`localHook = some f` models a model-level `beforeCreate` with `f m = true`
meaning it returns `false`. -/
def executeBeforeCreateHook (localHook : Option (Rec → Bool)) (m : Rec)
    (hooks : List GHook) : GlobalHookResult :=
  match localHook with
  | some f =>
    if f m then ⟨true, [], hooks⟩
    else executeGlobalBeforeMutationHooks m hooks
  | none => executeGlobalBeforeMutationHooks m hooks

/-- The state of a batch before-mutation run: the models not yet deleted, the
per-model invoked-callback-id lists, and the registry. -/
structure BatchHookRun where
  survivors : Table
  invocations : List (List Nat)
  hooksState : List GHook

/-- One model step of `executeBeforeCreateHookOnModels`. -/
def batchHookStep (localHook : Option (Rec → Bool)) (acc : BatchHookRun)
    (kv : Nat × Rec) : BatchHookRun :=
  let r := executeBeforeCreateHook localHook kv.2 acc.hooksState
  { survivors := if r.vetoed then acc.survivors else acc.survivors ++ [kv]
    invocations := acc.invocations ++ [r.invoked]
    hooksState := r.hooks }

/-- `executeBeforeCreateHookOnModels(models)`: run the hook chain on every
model of the batch (in key order), deleting each vetoed model. -/
def executeBeforeCreateHookOnModels (localHook : Option (Rec → Bool))
    (models : Table) (hooks : List GHook) : BatchHookRun :=
  models.foldl (batchHookStep localHook) ⟨[], [], hooks⟩

/-! ## Query chains -/

/-- One builder call of a query chain. -/
inductive ChainOp where
  | whereOp (f : String) (v : WhereVal)
  | orWhereOp (f : String) (v : WhereVal)
  deriving DecidableEq, Repr

/-- Whether a chain call is an `orWhere`. -/
def ChainOp.isOr : ChainOp → Bool
  | .whereOp _ _ => false
  | .orWhereOp _ _ => true

/-- Apply one builder call. -/
def applyOp (q : QueryState) : ChainOp → QueryState
  | .whereOp f v => whereQ q f v
  | .orWhereOp f v => orWhereQ q f v

/-- The query accumulated by a chain of builder calls on a fresh instance. -/
def buildChain (ops : List ChainOp) : QueryState :=
  ops.foldl applyOp initQuery

/-- A chain of conjunctive primary-key constraints (`where` on the primary
key; `whereId`/`whereIdIn` are sugar for exactly these calls). -/
def pkChain (vs : List WhereVal) : QueryState :=
  vs.foldl (fun q v => whereQ q modelPrimaryKey v) initQuery

/-- The `and`-tagged clauses of a where list. -/
def andClauses (ws : List WhereClause) : List WhereClause :=
  ws.filter (fun w => w.boolTag == WhereBoolTag.and)

/-- A normalized batch is well-keyed when every record carries its own key as
its primary-key value — which is how the external `Processor` keys batches. -/
def wellKeyed (records : Records) : Prop :=
  ∀ kp ∈ records, kp.2.id = some kp.1

/-- The invariant tying the id filter to the recorded `and` clauses on the
primary key: whenever the filter holds a value set, a record satisfying every
`and` clause has its id in the set (the filter is an intersection of a subset
of the `and` constraints). -/
def IdFilterInv (q : QueryState) : Prop :=
  ∀ s, q.idFilter = some s →
    andClauses q.wheres ≠ [] ∧
    ∀ r : Rec, (andClauses q.wheres).all (matchW r) = true → r.id ∈ s

/-! ## Helper lemmas -/

@[simp] theorem mem_jsSetAux {x : Nat} : ∀ {l seen : List Nat},
    x ∈ jsSetAux seen l ↔ x ∈ l ∧ x ∉ seen := by
  intro l
  induction l with
  | nil => intro seen; simp [jsSetAux]
  | cons y ys ih =>
    intro seen
    by_cases hy : y ∈ seen
    · rw [jsSetAux, if_pos (by simpa using hy)]
      rw [ih]
      simp only [List.mem_cons]
      constructor
      · rintro ⟨h1, h2⟩
        exact ⟨Or.inr h1, h2⟩
      · rintro ⟨h1 | h1, h2⟩
        · exact absurd (h1.symm ▸ hy) h2
        · exact ⟨h1, h2⟩
    · rw [jsSetAux, if_neg (by simpa using hy)]
      simp only [List.mem_cons, ih]
      constructor
      · rintro (rfl | ⟨h1, h2⟩)
        · exact ⟨Or.inl rfl, hy⟩
        · exact ⟨Or.inr h1, fun hx => h2 (Or.inr hx)⟩
      · rintro ⟨h1 | h1, h2⟩
        · exact Or.inl h1
        · by_cases hxy : x = y
          · exact Or.inl hxy
          · exact Or.inr ⟨h1, by simp [List.mem_cons, hxy, h2]⟩

@[simp] theorem mem_jsSet {x : Nat} {l : List Nat} : x ∈ jsSet l ↔ x ∈ l := by
  simp [jsSet]

theorem objLookup_append_found {α : Type} {k : Nat} {v : α} :
    ∀ {u : List (Nat × α)} (w : List (Nat × α)), objLookup k u = some v →
      objLookup k (u ++ w) = some v := by
  intro u
  induction u with
  | nil => intro w h; simp [objLookup] at h
  | cons kv t ih =>
    intro w h
    rw [objLookup] at h
    rw [List.cons_append, objLookup]
    split at h
    · next heq => rw [if_pos heq]; exact h
    · next heq => rw [if_neg heq]; exact ih w h

theorem objLookup_append_none {α : Type} {k : Nat} :
    ∀ {u : List (Nat × α)} (w : List (Nat × α)), objLookup k u = none →
      objLookup k (u ++ w) = objLookup k w := by
  intro u
  induction u with
  | nil => intro w _; simp
  | cons kv t ih =>
    intro w h
    rw [objLookup] at h
    rw [List.cons_append, objLookup]
    split at h
    · exact absurd h (by simp)
    · next heq => rw [if_neg heq]; exact ih w h

theorem objLookup_mem {k : Nat} {v : Rec} :
    ∀ {t : Table}, objLookup k t = some v → (k, v) ∈ t := by
  intro t
  induction t with
  | nil => intro h; simp [objLookup] at h
  | cons kv t ih =>
    intro h
    rw [objLookup] at h
    split at h
    · next heq =>
      cases kv with
      | mk k' v' =>
        simp only at heq
        injection h with h
        subst heq h
        exact List.mem_cons_self _ _
    · exact List.mem_cons_of_mem _ (ih h)

theorem objLookup_eq_none_of_not_mem {α : Type} {k : Nat} :
    ∀ {t : List (Nat × α)}, k ∉ t.map Prod.fst → objLookup k t = none := by
  intro t
  induction t with
  | nil => intro _; rfl
  | cons kv t ih =>
    intro h
    rw [objLookup]
    simp only [List.map_cons, List.mem_cons] at h
    push_neg at h
    rw [if_neg (fun he => h.1 he.symm)]
    exact ih h.2

theorem objLookup_merge_mapPart {k : Nat} {v : Rec} (b : Table) :
    ∀ {a : Table}, objLookup k a = some v →
      objLookup k (a.map (fun kv => (kv.1, (objLookup kv.1 b).getD kv.2)))
        = some ((objLookup k b).getD v) := by
  intro a
  induction a with
  | nil => intro h; simp [objLookup] at h
  | cons kv t ih =>
    intro h
    rw [objLookup] at h
    rw [List.map_cons, objLookup]
    split at h
    · next heq =>
      rw [if_pos heq]
      injection h with h
      subst heq h
      rfl
    · next heq => rw [if_neg heq]; exact ih h

theorem objLookup_merge_mapPart_none {k : Nat} (b : Table) :
    ∀ {a : Table}, objLookup k a = none →
      objLookup k (a.map (fun kv => (kv.1, (objLookup kv.1 b).getD kv.2))) = none := by
  intro a
  induction a with
  | nil => intro _; rfl
  | cons kv t ih =>
    intro h
    rw [objLookup] at h
    rw [List.map_cons, objLookup]
    split at h
    · exact absurd h (by simp)
    · next heq => rw [if_neg heq]; exact ih h

theorem objLookup_merge_filterPart {k : Nat} (a : Table) (ha : objLookup k a = none) :
    ∀ (b : Table),
      objLookup k (b.filter (fun kv => (objLookup kv.1 a).isNone)) = objLookup k b := by
  intro b
  induction b with
  | nil => rfl
  | cons kv t ih =>
    by_cases hk : kv.1 = k
    · have hpred : (objLookup kv.1 a).isNone = true := by rw [hk, ha]; rfl
      rw [List.filter_cons, if_pos hpred, objLookup, if_pos hk, objLookup, if_pos hk]
    · rw [List.filter_cons]
      by_cases hp : (objLookup kv.1 a).isNone = true
      · rw [if_pos hp, objLookup, if_neg hk, objLookup, if_neg hk]
        exact ih
      · rw [if_neg hp, objLookup, if_neg hk]
        exact ih

/-- The characterization of a property read on a spread-merged object. -/
theorem objLookup_merge (k : Nat) (a b : Table) :
    objLookup k (objMerge a b)
      = match objLookup k a with
        | some v => some ((objLookup k b).getD v)
        | none => objLookup k b := by
  rw [objMerge]
  cases h : objLookup k a with
  | some v =>
    exact objLookup_append_found _ (objLookup_merge_mapPart b h)
  | none =>
    rw [objLookup_append_none _ (objLookup_merge_mapPart_none b h)]
    exact objLookup_merge_filterPart a h b

@[simp] theorem objMerge_nil_left (b : Table) : objMerge [] b = b := by
  rw [objMerge]
  simp [objLookup]

theorem mem_objMerge_left {k : Nat} {r : Rec} {a : Table} (b : Table)
    (hmem : (k, r) ∈ a) (hb : objLookup k b = none) : (k, r) ∈ objMerge a b := by
  rw [objMerge]
  refine List.mem_append_left _ ?_
  have : (k, (objLookup k b).getD r) = (k, r) := by rw [hb]; rfl
  simpa [this] using List.mem_map_of_mem (fun kv => (kv.1, (objLookup kv.1 b).getD kv.2)) hmem

/-! ## Claim C6 -/

/-- C6: for every query state, `getIdsToLookup` returns the intersection of
`idFilter` and `joinedIdFilter` when both are set (membership is conjunction,
never disjunction — no union), whichever one is set when only one is, and
every key of the table when neither is set. -/
theorem getIdsToLookup_resolution :
    (∀ (q : QueryState) (tbl : Table) (f j : List Nat),
        q.idFilter = some f → q.joinedIdFilter = some j →
        (∀ x, x ∈ getIdsToLookup q tbl ↔ (x ∈ f ∧ x ∈ j)) ∧
        getIdsToLookup q tbl = f.filter (fun id => j.contains id)) ∧
    (∀ (q : QueryState) (tbl : Table) (f : List Nat),
        q.idFilter = some f → q.joinedIdFilter = none → getIdsToLookup q tbl = f) ∧
    (∀ (q : QueryState) (tbl : Table) (j : List Nat),
        q.idFilter = none → q.joinedIdFilter = some j → getIdsToLookup q tbl = j) ∧
    (∀ (q : QueryState) (tbl : Table),
        q.idFilter = none → q.joinedIdFilter = none →
        getIdsToLookup q tbl = tbl.map Prod.fst) := by
  refine ⟨?_, ?_, ?_, ?_⟩
  · intro q tbl f j hf hj
    constructor
    · intro x
      simp only [getIdsToLookup, hf, hj]
      simp [List.mem_filter]
    · simp only [getIdsToLookup, hf, hj]
  · intro q tbl f hf hj
    simp only [getIdsToLookup, hf, hj]
  · intro q tbl j hf hj
    simp only [getIdsToLookup, hf, hj]
  · intro q tbl hf hj
    simp only [getIdsToLookup, hf, hj]

/-- A query state with both identity filters set, for the C6 witness. -/
def qBothFilters : QueryState :=
  { idFilter := some [5, 7], joinedIdFilter := some [5] }

/-- Witness for C6 at a concrete state: both filters set combine by
intersection. -/
theorem getIdsToLookup_resolution_witness :
    5 ∈ getIdsToLookup qBothFilters [] ↔ (5 ∈ [5, 7] ∧ 5 ∈ [5]) :=
  (getIdsToLookup_resolution.1 qBothFilters [] [5, 7] [5] rfl rfl).1 5

/-! ## Claim C7 -/

theorem deleteByCondition_foldl (bd c : Rec → Bool) :
    ∀ (tbl : Table) (d : List Rec) (k : Table),
      tbl.foldl (fun acc kv =>
        if !c kv.2 then (acc.1, acc.2 ++ [kv])
        else if bd kv.2 then (acc.1, acc.2 ++ [kv])
        else (acc.1 ++ [kv.2], acc.2)) (d, k)
      = (d ++ (tbl.map Prod.snd).filter (fun m => c m && !bd m),
         k ++ tbl.filter (fun kv => !c kv.2 || bd kv.2)) := by
  intro tbl
  induction tbl with
  | nil => intro d k; simp
  | cons kv t ih =>
    intro d k
    rw [List.foldl_cons]
    by_cases hc : c kv.2
    · by_cases hb : bd kv.2
      · simp only [hc, hb, Bool.not_true, Bool.false_eq_true, if_false, if_true]
        rw [ih]
        simp [hc, hb]
      · simp only [hc, hb, Bool.not_true, Bool.false_eq_true, if_false]
        rw [ih]
        simp [hc, hb]
    · simp only [hc, Bool.not_false, if_true]
      rw [ih]
      simp [hc]

/-- C7: `delete(predicate)` rebuilds the table keeping exactly the records
for which the predicate is false or the before-delete hook vetoed, and
returns exactly the records (in table order) for which the predicate is true
and no before-delete hook vetoed; the spec's example behaves as stated. -/
theorem deleteByCondition_spec :
    (∀ (bd c : Rec → Bool) (tbl : Table),
        deleteByCondition bd c tbl
          = ((tbl.map Prod.snd).filter (fun m => c m && !bd m),
             tbl.filter (fun kv => !c kv.2 || bd kv.2))) ∧
    deleteByCondition (fun _ => false) (fun m => m.name == "a")
        [(1, ⟨1, "a", 1⟩), (2, ⟨2, "b", 2⟩)]
      = ([⟨1, "a", 1⟩], [(2, ⟨2, "b", 2⟩)]) := by
  constructor
  · intro bd c tbl
    rw [deleteByCondition]
    simpa using deleteByCondition_foldl bd c tbl [] []
  · rfl

/-! ## Claim C2 -/

/-- C2 (the code contradicts the claim): updating the record stored under key
`1` with new primary-key value `2` puts the updated instance under key `2`
but leaves the stale old record under key `1` in the table — the old key is
only deleted from the batch object, which is then spread-merged over the
unchanged table.  A `get()` right after therefore sees both keys.  (The call
also returns `null`ish `undefined`, since the item is read back from the
rekeyed batch under the old id.) -/
theorem updateById_rekey_leaves_old_key :
    (updateById (fun _ => false) (.patch ⟨some 2, none, none⟩) 1
        [(1, ⟨1, "x", 1⟩)]).2
      = [(1, ⟨1, "x", 1⟩), (2, ⟨2, "x", 2⟩)] ∧
    objLookup 1 (updateById (fun _ => false) (.patch ⟨some 2, none, none⟩) 1
        [(1, ⟨1, "x", 1⟩)]).2 = some ⟨1, "x", 1⟩ ∧
    (updateById (fun _ => false) (.patch ⟨some 2, none, none⟩) 1
        [(1, ⟨1, "x", 1⟩)]).1 = none :=
  ⟨rfl, rfl, rfl⟩

/-! ## Claim C3 -/

/-- C3 (the code contradicts the claim): with the registry
`[h1 ↦ false, h2 ↦ true]`, `Array.some` keeps calling after `h1` returned the
veto signal, invokes `h2`, and the model is **not** excluded (it is excluded
only when every callback returns `false`); moreover with
`[h1 ↦ true, h2 ↦ true]` the run stops after `h1`, so a non-vetoing callback
prevents later callbacks from being invoked at all. -/
theorem beforeMutationHooks_some_misuse :
    (executeGlobalBeforeMutationHooks ⟨1, "m", 1⟩
        [⟨1, false, fun _ => true⟩, ⟨2, false, fun _ => false⟩]).invoked = [1, 2] ∧
    (executeGlobalBeforeMutationHooks ⟨1, "m", 1⟩
        [⟨1, false, fun _ => true⟩, ⟨2, false, fun _ => false⟩]).vetoed = false ∧
    (executeBeforeCreateHookOnModels none [(1, ⟨1, "m", 1⟩)]
        [⟨1, false, fun _ => true⟩, ⟨2, false, fun _ => false⟩]).survivors
      = [(1, ⟨1, "m", 1⟩)] ∧
    (executeGlobalBeforeMutationHooks ⟨1, "m", 1⟩
        [⟨1, false, fun _ => false⟩, ⟨2, false, fun _ => false⟩]).invoked = [1] :=
  ⟨rfl, rfl, rfl, rfl⟩

/-! ## Claim C9 -/

/-- C9 (counterexample to the claim as stated): the scalar condition `0` is a
number, yet against a composite-key model the call does **not** raise — JS
truthiness makes `if (!condition)` treat `0` as an absent condition, so the
data is normalized and persisted instead. -/
theorem update_falsy_scalar_counterexample :
    update ⟨0, "", 0⟩ true (fun _ => false) (fun _ => false) true (fun _ => true) "users"
        (fun _ => []) (.record ⟨some 2, none, none⟩) (.scalar 0) {} [(1, ⟨1, "a", 1⟩)]
      = .ok (.collections [], [(1, ⟨1, "a", 1⟩)]) ∧
    exceptIsError (update ⟨0, "", 0⟩ true (fun _ => false) (fun _ => false) true
        (fun _ => true) "users" (fun _ => []) (.record ⟨some 2, none, none⟩) (.scalar 0)
        {} [(1, ⟨1, "a", 1⟩)]) = false :=
  ⟨rfl, rfl⟩

/-- C9 (amended): a closure update without a condition raises synchronously,
and a **truthy** (nonzero) scalar condition against a composite-key model
raises synchronously; in both cases the error is returned before any
mutation, so the table is untouched (the error case carries no table).  A
falsy scalar condition (`0`) is instead treated as an absent condition and
routed through normalize-and-persist. -/
theorem update_invalid_args_error :
    (∀ (dflt : Rec) (pkComp : Bool) (bc bu : Rec → Bool) (aob : Bool)
        (instOf : Rec → Bool) (entity : String) (normFn : UpdateInput → Records)
        (f : Rec → Rec) (options : PersistOptions) (tbl : Table),
        update dflt pkComp bc bu aob instOf entity normFn (.closure f) .noCond options tbl
          = .error updClosureErr) ∧
    (∀ (dflt : Rec) (bc bu : Rec → Bool) (aob : Bool) (instOf : Rec → Bool)
        (entity : String) (normFn : UpdateInput → Records) (p : RecPatch) (n : Nat)
        (options : PersistOptions) (tbl : Table), n ≠ 0 →
        update dflt true bc bu aob instOf entity normFn (.record p) (.scalar n) options tbl
          = .error updCompositeErr) := by
  constructor
  · intro dflt pkComp bc bu aob instOf entity normFn f options tbl
    rfl
  · intro dflt bc bu aob instOf entity normFn p n options tbl hn
    simp [update, hn]

/-- Witness for C9 at a concrete nonzero scalar condition. -/
theorem update_invalid_args_error_witness :
    update ⟨0, "", 0⟩ true (fun _ => false) (fun _ => false) true (fun _ => true) "users"
        (fun _ => []) (.record ⟨some 2, none, none⟩) (.scalar 7) {} []
      = .error updCompositeErr :=
  update_invalid_args_error.2 ⟨0, "", 0⟩ (fun _ => false) (fun _ => false) true
    (fun _ => true) "users" (fun _ => []) ⟨some 2, none, none⟩ 7 {} [] (by decide)

/-! ## Claim C8 -/

/-- C8: `create` empties before inserting — on a base-entity query the new
table is exactly the (post-veto) hydrated batch, with every prior row gone;
on a derived-entity query only rows of the derived type are removed, and any
sibling row (not of the derived type, key not reused by the batch) is still
present afterwards; and a `create` whose normalized input is empty still
empties the state. -/
theorem create_empties_state_spec :
    (∀ (dflt : Rec) (bc instOf : Rec → Bool) (records : Records) (tbl : Table),
        (createMany dflt bc true instOf records tbl).2
          = (hydrateMany dflt records).filter (fun kv => !bc kv.2)) ∧
    (∀ (dflt : Rec) (bc instOf : Rec → Bool) (records : Records) (tbl : Table),
        (createMany dflt bc false instOf records tbl).2
          = objMerge (tbl.filter (fun kv => !instOf kv.2))
              ((hydrateMany dflt records).filter (fun kv => !bc kv.2))) ∧
    (∀ (dflt : Rec) (bc instOf : Rec → Bool) (records : Records) (tbl : Table)
        (k : Nat) (r : Rec), (k, r) ∈ tbl → instOf r = false →
        k ∉ records.map Prod.fst →
        (k, r) ∈ (createMany dflt bc false instOf records tbl).2) ∧
    (∀ (dflt : Rec) (bc bu instOf : Rec → Bool) (aob : Bool) (entity : String)
        (options : PersistOptions) (tbl : Table),
        persist dflt bc bu aob instOf entity [] .create options tbl
          = ([], emptyState aob instOf tbl)) := by
  refine ⟨?_, ?_, ?_, ?_⟩
  · intro dflt bc instOf records tbl
    simp [createMany, emptyState]
  · intro dflt bc instOf records tbl
    rfl
  · intro dflt bc instOf records tbl k r hmem hio hk
    have h1 : (k, r) ∈ tbl.filter (fun kv => !instOf kv.2) := by
      simp [List.mem_filter, hmem, hio]
    have h2 : objLookup k ((hydrateMany dflt records).filter (fun kv => !bc kv.2)) = none := by
      apply objLookup_eq_none_of_not_mem
      intro hx
      apply hk
      rcases List.mem_map.mp hx with ⟨kv, hkv, hfst⟩
      have hkv' : kv ∈ hydrateMany dflt records := List.mem_of_mem_filter hkv
      rcases List.mem_map.mp hkv' with ⟨kp, hkp, heq⟩
      rw [← hfst, ← heq]
      exact List.mem_map_of_mem Prod.fst hkp
    have h3 := mem_objMerge_left _ h1 h2
    simpa [createMany, emptyState] using h3
  · intro dflt bc bu instOf aob entity options tbl
    rfl

/-- Witness for C8: a sibling row of a derived-entity `create` survives. -/
theorem create_empties_state_spec_witness :
    (1, (⟨1, "a", 1⟩ : Rec)) ∈ (createMany ⟨0, "", 0⟩ (fun _ => false) false
        (fun r => r.id == 2) [(3, ⟨some 3, some "c", some 3⟩)]
        [(1, ⟨1, "a", 1⟩), (2, ⟨2, "b", 2⟩)]).2 :=
  create_empties_state_spec.2.2.1 ⟨0, "", 0⟩ (fun _ => false) (fun r => r.id == 2)
    [(3, ⟨some 3, some "c", some 3⟩)] [(1, ⟨1, "a", 1⟩), (2, ⟨2, "b", 2⟩)] 1 ⟨1, "a", 1⟩
    (by decide) (by decide) (by decide)

/-! ## Claim C1 -/

theorem updateIndexes_id {insts : Table} (h : ∀ kv ∈ insts, kv.2.id = kv.1) :
    updateIndexes insts = insts := by
  have hstep : ∀ key, updateIndexesStep insts key = insts := by
    intro key
    rw [updateIndexesStep]
    cases hl : objLookup key insts with
    | none => rfl
    | some inst =>
      have hid : inst.id = key := h _ (objLookup_mem hl)
      simp [getIndexIdFromRecord, hid]
  have aux : ∀ ks : List Nat, ks.foldl updateIndexesStep insts = insts := by
    intro ks
    induction ks with
    | nil => rfl
    | cons key t ih => rw [List.foldl_cons, hstep]; exact ih
  exact aux _

theorem combine_keys_id {records : Records} {tbl : Table}
    (hwk : ∀ kp ∈ records, kp.2.id = some kp.1) :
    ∀ kv ∈ combine records tbl, kv.2.id = kv.1 := by
  intro kv hkv
  rw [combine] at hkv
  rcases List.mem_filterMap.mp hkv with ⟨kp, hkp, hmap⟩
  cases hl : objLookup kp.1 tbl with
  | none => rw [hl] at hmap; simp at hmap
  | some inst =>
    rw [hl] at hmap
    simp only [Option.map_some'] at hmap
    cases hmap
    simp [mergePatch, hwk kp hkp]

theorem combine_length {records : Records} {tbl : Table}
    (h : ∀ kp ∈ records, (objLookup kp.1 tbl).isSome = true) :
    (combine records tbl).length = records.length := by
  rw [combine]
  induction records with
  | nil => rfl
  | cons kp t ih =>
    rw [List.filterMap_cons]
    cases hl : objLookup kp.1 tbl with
    | none =>
      have := h kp (List.mem_cons_self _ _)
      rw [hl] at this
      simp at this
    | some inst =>
      simp only [Option.map_some', List.length_cons]
      rw [ih (fun kp' hkp' => h kp' (List.mem_cons_of_mem _ hkp'))]

theorem length_filter_partition {α : Type} (p : α → Bool) (l : List α) :
    (l.filter p).length + (l.filter (fun x => !p x)).length = l.length := by
  induction l with
  | nil => rfl
  | cons x t ih =>
    by_cases hx : p x
    · simp [List.filter_cons, hx, ← ih]
      omega
    · simp [List.filter_cons, hx, ← ih]
      omega

theorem objLookup_merge_isSome_left {k : Nat} {a : Table} (b : Table)
    (h : (objLookup k a).isSome = true) :
    (objLookup k (objMerge a b)).isSome = true := by
  rw [objLookup_merge]
  cases hl : objLookup k a with
  | none => rw [hl] at h; simp at h
  | some v => simp

/-- The input batch of the C1 example: id 1 exists in the table, id 2 is new. -/
def recsBoth : Records :=
  [(1, ⟨some 1, some "A", some 1⟩), (2, ⟨some 2, some "b", some 2⟩)]

/-- The one-row table of the C1 example. -/
def tblOne : Table := [(1, ⟨1, "a", 1⟩)]

/-- C1 (counterexample to the claim as stated): on a batch with one existing
and one new id, `insertOrUpdateMany` returns the **inserted** record first —
`[...this.insertMany(toBeInserted), ...this.updateMany(toBeUpdated)]` puts
inserted-records before updated-records, not the other way around. -/
theorem insertOrUpdate_order_counterexample :
    (insertOrUpdateMany ⟨0, "", 0⟩ (fun _ => false) (fun _ => false) recsBoth tblOne).1
      = [⟨2, "b", 2⟩, ⟨1, "A", 1⟩] ∧
    ([⟨2, "b", 2⟩, ⟨1, "A", 1⟩] : List Rec) ≠ [⟨1, "A", 1⟩, ⟨2, "b", 2⟩] :=
  ⟨rfl, by decide⟩

/-- C1 (amended): with no vetoing hooks and a well-keyed batch,
`insertOrUpdate` partitions by key existence and returns a collection of
length equal to the input batch length, concatenating the inserted-records
**before** the updated-records. -/
theorem insertOrUpdate_inserted_then_updated_length
    (dflt : Rec) (records : Records) (tbl : Table) (hwk : wellKeyed records) :
    (insertOrUpdateMany dflt (fun _ => false) (fun _ => false) records tbl).1.length
        = records.length ∧
    (insertOrUpdateMany dflt (fun _ => false) (fun _ => false) records tbl).1
      = (hydrateMany dflt (records.filter
            (fun kp => !(objLookup kp.1 tbl).isSome))).map Prod.snd
        ++ (combine (records.filter (fun kp => (objLookup kp.1 tbl).isSome))
              (objMerge tbl (hydrateMany dflt (records.filter
                (fun kp => !(objLookup kp.1 tbl).isSome))))).map Prod.snd := by
  have hfilt : ∀ l : Table, l.filter (fun kv => !(fun (_ : Rec) => false) kv.2) = l := by
    intro l
    exact List.filter_eq_self.mpr (fun a _ => rfl)
  have hui : updateIndexes (combine (records.filter (fun kp => (objLookup kp.1 tbl).isSome))
      (objMerge tbl (hydrateMany dflt (records.filter
        (fun kp => !(objLookup kp.1 tbl).isSome))))) =
      combine (records.filter (fun kp => (objLookup kp.1 tbl).isSome))
        (objMerge tbl (hydrateMany dflt (records.filter
          (fun kp => !(objLookup kp.1 tbl).isSome)))) := by
    apply updateIndexes_id
    apply combine_keys_id
    intro kp hkp
    exact hwk kp (List.mem_of_mem_filter hkp)
  have hmain : (insertOrUpdateMany dflt (fun _ => false) (fun _ => false) records tbl).1
      = (hydrateMany dflt (records.filter
            (fun kp => !(objLookup kp.1 tbl).isSome))).map Prod.snd
        ++ (combine (records.filter (fun kp => (objLookup kp.1 tbl).isSome))
              (objMerge tbl (hydrateMany dflt (records.filter
                (fun kp => !(objLookup kp.1 tbl).isSome))))).map Prod.snd := by
    rw [insertOrUpdateMany, insertMany, updateMany, commitUpdate]
    simp only [hfilt, hui]
  refine ⟨?_, hmain⟩
  rw [hmain]
  rw [List.length_append, List.length_map, List.length_map, hydrateMany, List.length_map]
  rw [combine_length]
  · rw [Nat.add_comm]
    exact length_filter_partition (fun kp => (objLookup kp.1 tbl).isSome) records
  · intro kp hkp
    apply objLookup_merge_isSome_left
    exact (List.mem_filter.mp hkp).2

/-- Witness for C1 at the concrete example batch. -/
theorem insertOrUpdate_inserted_then_updated_length_witness :
    (insertOrUpdateMany ⟨0, "", 0⟩ (fun _ => false) (fun _ => false) recsBoth tblOne).1.length
      = recsBoth.length :=
  (insertOrUpdate_inserted_then_updated_length ⟨0, "", 0⟩ recsBoth tblOne
    (by unfold wellKeyed; decide)).1

/-! ## Builder component lemmas -/

@[simp] theorem setIdFilter_cancel (q : QueryState) (v : WhereVal) :
    (setIdFilter q v).cancelIdFilter = q.cancelIdFilter := by
  cases h : q.idFilter <;> simp [setIdFilter, h]

@[simp] theorem setIdFilter_joined (q : QueryState) (v : WhereVal) :
    (setIdFilter q v).joinedIdFilter = q.joinedIdFilter := by
  cases h : q.idFilter <;> simp [setIdFilter, h]

@[simp] theorem setIdFilter_wheres (q : QueryState) (v : WhereVal) :
    (setIdFilter q v).wheres = q.wheres := by
  cases h : q.idFilter <;> simp [setIdFilter, h]

@[simp] theorem setIdFilter_base (q : QueryState) (v : WhereVal) :
    (setIdFilter q v).appliedOnBase = q.appliedOnBase := by
  cases h : q.idFilter <;> simp [setIdFilter, h]

@[simp] theorem setIdFilter_offset (q : QueryState) (v : WhereVal) :
    (setIdFilter q v).offsetNumber = q.offsetNumber := by
  cases h : q.idFilter <;> simp [setIdFilter, h]

@[simp] theorem setIdFilter_limit (q : QueryState) (v : WhereVal) :
    (setIdFilter q v).limitNumber = q.limitNumber := by
  cases h : q.idFilter <;> simp [setIdFilter, h]

@[simp] theorem whereQ_cancel (q : QueryState) (f : String) (v : WhereVal) :
    (whereQ q f v).cancelIdFilter = q.cancelIdFilter := by
  rw [whereQ]
  by_cases h : isIdfilterable q f = true <;> simp [h]

@[simp] theorem whereQ_joined (q : QueryState) (f : String) (v : WhereVal) :
    (whereQ q f v).joinedIdFilter = q.joinedIdFilter := by
  rw [whereQ]
  by_cases h : isIdfilterable q f = true <;> simp [h]

@[simp] theorem whereQ_base (q : QueryState) (f : String) (v : WhereVal) :
    (whereQ q f v).appliedOnBase = q.appliedOnBase := by
  rw [whereQ]
  by_cases h : isIdfilterable q f = true <;> simp [h]

@[simp] theorem whereQ_offset (q : QueryState) (f : String) (v : WhereVal) :
    (whereQ q f v).offsetNumber = q.offsetNumber := by
  rw [whereQ]
  by_cases h : isIdfilterable q f = true <;> simp [h]

@[simp] theorem whereQ_limit (q : QueryState) (f : String) (v : WhereVal) :
    (whereQ q f v).limitNumber = q.limitNumber := by
  rw [whereQ]
  by_cases h : isIdfilterable q f = true <;> simp [h]

theorem whereQ_wheres (q : QueryState) (f : String) (v : WhereVal) :
    (whereQ q f v).wheres = q.wheres ++ [⟨f, v, .and⟩] := by
  rw [whereQ]
  by_cases h : isIdfilterable q f = true <;> simp [h]

/-! ## Claim C5 -/

theorem pkChain_foldl_idFilter :
    ∀ (vs : List WhereVal) (q : QueryState) (s : List Nat),
      q.cancelIdFilter = false → q.idFilter = some s →
      ∃ s', (vs.foldl (fun q v => whereQ q modelPrimaryKey v) q).idFilter = some s' ∧
        ∀ x, x ∈ s' ↔ (x ∈ s ∧ ∀ v ∈ vs, x ∈ valuesOf v) := by
  intro vs
  induction vs with
  | nil =>
    intro q s hc hf
    exact ⟨s, hf, by simp⟩
  | cons v t ih =>
    intro q s hc hf
    rw [List.foldl_cons]
    have hfilt : isIdfilterable q modelPrimaryKey = true := by
      simp [isIdfilterable, hc]
    have hq' : (whereQ q modelPrimaryKey v).idFilter
        = some (jsSet ((valuesOf v).filter (fun x => s.contains x))) := by
      simp [whereQ, hfilt, setIdFilter, hf]
    have hc' : (whereQ q modelPrimaryKey v).cancelIdFilter = false := by
      rw [whereQ_cancel]; exact hc
    rcases ih _ _ hc' hq' with ⟨s', h1, h2⟩
    refine ⟨s', h1, fun x => ?_⟩
    rw [h2]
    simp only [mem_jsSet, List.mem_filter, List.forall_mem_cons]
    constructor
    · rintro ⟨⟨hv, hs⟩, ht⟩
      exact ⟨by simpa using hs, hv, ht⟩
    · rintro ⟨hs, hv, ht⟩
      exact ⟨⟨hv, by simpa using hs⟩, ht⟩

/-- C5: a nonempty sequence of conjunctive primary-key constraints
(`where`/`whereId`/`whereIdIn` on the primary key) leaves `idFilter` holding
exactly the set intersection of the given value sets; in particular
`whereId(1).whereId(2)` leaves the empty set, and `get()` then resolves no
lookup keys at all for any table (no table scan) and returns the empty
sequence. -/
theorem idFilter_intersection :
    (∀ vs : List WhereVal, vs ≠ [] →
      (pkChain vs).idFilter.isSome = true ∧
      ∀ x, x ∈ (pkChain vs).idFilter.getD [] ↔ ∀ v ∈ vs, x ∈ valuesOf v) ∧
    (pkChain [.one 1, .one 2]).idFilter = some [] ∧
    (∀ (dflt : Rec) (instOf : Rec → Bool) (tbl : Table),
      getIdsToLookup (finalizeIdFilter (pkChain [.one 1, .one 2])) tbl = [] ∧
      getQ dflt instOf (pkChain [.one 1, .one 2]) tbl = []) := by
  refine ⟨?_, rfl, fun dflt instOf tbl => ⟨rfl, rfl⟩⟩
  intro vs hvs
  match vs, hvs with
  | v :: t, _ =>
    rw [pkChain, List.foldl_cons]
    have hq' : (whereQ initQuery modelPrimaryKey v).idFilter = some (jsSet (valuesOf v)) := by
      simp [whereQ, isIdfilterable, initQuery, setIdFilter]
    have hc' : (whereQ initQuery modelPrimaryKey v).cancelIdFilter = false := by
      rw [whereQ_cancel]; rfl
    rcases pkChain_foldl_idFilter t _ _ hc' hq' with ⟨s', h1, h2⟩
    rw [h1]
    refine ⟨rfl, fun x => ?_⟩
    simp only [Option.getD_some]
    rw [h2]
    simp [List.forall_mem_cons, and_comm]

/-- Witness for C5 at a concrete constraint chain. -/
theorem idFilter_intersection_witness :
    (pkChain [.one 3, .many [3, 4]]).idFilter.isSome = true :=
  (idFilter_intersection.1 [.one 3, .many [3, 4]] (by decide)).1

/-! ## Claim C10 -/

theorem someHooks_invoked_subset (m : Rec) :
    ∀ hs : List GHook, ∀ i ∈ (someHooks m hs).2, i ∈ hs.map GHook.id := by
  intro hs
  induction hs with
  | nil => intro i hi; simp [someHooks] at hi
  | cons h t ih =>
    intro i hi
    rw [someHooks] at hi
    by_cases hv : h.vetoes m
    · rw [if_pos hv] at hi
      rcases List.mem_cons.mp hi with rfl | hi'
      · simp
      · exact List.mem_cons_of_mem _ (ih i hi')
    · rw [if_neg hv] at hi
      simp only [List.mem_singleton] at hi
      simp [hi]

theorem execGlobal_hooks (m : Rec) (hs : List GHook) :
    (executeGlobalBeforeMutationHooks m hs).hooks = hs.filter (fun h => !h.once) := by
  rw [executeGlobalBeforeMutationHooks]
  by_cases h : hs.isEmpty
  · rw [if_pos h]
    cases hs with
    | nil => rfl
    | cons a t => simp at h
  · rw [if_neg h]

theorem execGlobal_invoked_subset (m : Rec) (hs : List GHook) :
    ∀ i ∈ (executeGlobalBeforeMutationHooks m hs).invoked, i ∈ hs.map GHook.id := by
  rw [executeGlobalBeforeMutationHooks]
  by_cases h : hs.isEmpty
  · rw [if_pos h]; intro i hi; simp at hi
  · rw [if_neg h]; exact someHooks_invoked_subset m hs

theorem execBCH_hooks_none (m : Rec) (hs : List GHook) :
    (executeBeforeCreateHook none m hs).hooks = hs.filter (fun h => !h.once) :=
  execGlobal_hooks m hs

theorem execBCH_hooks_subset (localHook : Option (Rec → Bool)) (m : Rec) (hs : List GHook) :
    ∀ g ∈ (executeBeforeCreateHook localHook m hs).hooks, g ∈ hs := by
  cases localHook with
  | none =>
    rw [executeBeforeCreateHook, execGlobal_hooks]
    intro g hg
    exact List.mem_of_mem_filter hg
  | some f =>
    rw [executeBeforeCreateHook]
    by_cases hf : f m
    · rw [if_pos hf]; intro g hg; exact hg
    · rw [if_neg hf, execGlobal_hooks]
      intro g hg
      exact List.mem_of_mem_filter hg

theorem execBCH_invoked_subset (localHook : Option (Rec → Bool)) (m : Rec) (hs : List GHook) :
    ∀ i ∈ (executeBeforeCreateHook localHook m hs).invoked, i ∈ hs.map GHook.id := by
  cases localHook with
  | none =>
    rw [executeBeforeCreateHook]
    exact execGlobal_invoked_subset m hs
  | some f =>
    rw [executeBeforeCreateHook]
    by_cases hf : f m
    · rw [if_pos hf]; intro i hi; simp at hi
    · rw [if_neg hf]; exact execGlobal_invoked_subset m hs

theorem batch_invocations_good (localHook : Option (Rec → Bool)) (target : List GHook) :
    ∀ (ms : Table) (acc : BatchHookRun),
      (∀ g ∈ acc.hooksState, g ∈ target) →
      ∃ rest, (ms.foldl (batchHookStep localHook) acc).invocations
          = acc.invocations ++ rest ∧
        ∀ l ∈ rest, ∀ i ∈ l, i ∈ target.map GHook.id := by
  intro ms
  induction ms with
  | nil =>
    intro acc hsub
    exact ⟨[], by simp, by simp⟩
  | cons kv t ih =>
    intro acc hsub
    rw [List.foldl_cons]
    have hstep_sub : ∀ g ∈ (batchHookStep localHook acc kv).hooksState, g ∈ target := by
      intro g hg
      simp only [batchHookStep] at hg
      exact hsub g (execBCH_hooks_subset localHook kv.2 acc.hooksState g hg)
    rcases ih _ hstep_sub with ⟨rest, h1, h2⟩
    refine ⟨(executeBeforeCreateHook localHook kv.2 acc.hooksState).invoked :: rest, ?_, ?_⟩
    · rw [h1]
      simp [batchHookStep]
    · intro l hl i hil
      rcases List.mem_cons.mp hl with rfl | hl'
      · have hi' := execBCH_invoked_subset localHook kv.2 acc.hooksState i hil
        rcases List.mem_map.mp hi' with ⟨g, hg, hgid⟩
        exact hgid ▸ List.mem_map_of_mem GHook.id (hsub g hg)
      · exact h2 l hl' i hil

/-- C10: with a multi-model batch and no local before-hook, the `once`-flagged
global before-mutation hooks are pruned after the first model of the batch is
processed (the registry afterwards is exactly the non-`once` entries), so a
`once` hook (with registry ids distinct) is invoked during at most the first
model's processing — never for a later model of the batch. -/
theorem once_hooks_pruned_after_first_model
    (hooks : List GHook) (hnd : (hooks.map GHook.id).Nodup)
    (m : Nat × Rec) (ms : List (Nat × Rec)) (h : GHook) (hmem : h ∈ hooks)
    (honce : h.once = true) :
    (executeBeforeCreateHookOnModels none [m] hooks).hooksState
        = hooks.filter (fun g => !g.once) ∧
    ∀ l ∈ (executeBeforeCreateHookOnModels none (m :: ms) hooks).invocations.drop 1,
      h.id ∉ l := by
  constructor
  · rw [executeBeforeCreateHookOnModels]
    simp only [List.foldl_cons, List.foldl_nil, batchHookStep]
    exact execBCH_hooks_none m.2 hooks
  · rw [executeBeforeCreateHookOnModels, List.foldl_cons]
    have hsub : ∀ g ∈ (batchHookStep none ⟨[], [], hooks⟩ m).hooksState,
        g ∈ hooks.filter (fun g => !g.once) := by
      simp only [batchHookStep]
      rw [execBCH_hooks_none]
      intro g hg
      exact hg
    rcases batch_invocations_good none (hooks.filter (fun g => !g.once)) ms
      (batchHookStep none ⟨[], [], hooks⟩ m) hsub with ⟨rest, h1, h2⟩
    rw [h1]
    have hinv1 : (batchHookStep none ⟨[], [], hooks⟩ m).invocations
        = [(executeBeforeCreateHook none m.2 hooks).invoked] := by
      simp [batchHookStep]
    rw [hinv1]
    intro l hl hil
    have hl' : l ∈ rest := by simpa using hl
    have hid : h.id ∈ (hooks.filter (fun g => !g.once)).map GHook.id := h2 l hl' h.id hil
    rcases List.mem_map.mp hid with ⟨g, hg, hgid⟩
    have hgmem : g ∈ hooks := List.mem_of_mem_filter hg
    have hgonce : g.once = false := by
      have := (List.mem_filter.mp hg).2
      simpa using this
    have hgh : g = h := List.inj_on_of_nodup_map hnd hgmem hmem hgid
    rw [hgh, honce] at hgonce
    exact absurd hgonce (by decide)

/-- The registry for the C10 witness: a `once` hook then a persistent hook. -/
def hooksOnce : List GHook := [⟨1, true, fun _ => false⟩, ⟨2, false, fun _ => false⟩]

/-- Witness for C10: after the first model the `once` entry is pruned. -/
theorem once_hooks_pruned_after_first_model_witness :
    (executeBeforeCreateHookOnModels none [(1, ⟨1, "m", 1⟩)] hooksOnce).hooksState
      = hooksOnce.filter (fun g => !g.once) :=
  (once_hooks_pruned_after_first_model hooksOnce (by decide) (1, ⟨1, "m", 1⟩) []
    ⟨1, true, fun _ => false⟩ (List.mem_cons_self _ _) rfl).1

/-! ## Claim C4 -/

@[simp] theorem orWhereQ_idFilter (q : QueryState) (f : String) (v : WhereVal) :
    (orWhereQ q f v).idFilter = q.idFilter := rfl

@[simp] theorem orWhereQ_joined (q : QueryState) (f : String) (v : WhereVal) :
    (orWhereQ q f v).joinedIdFilter = q.joinedIdFilter := rfl

@[simp] theorem orWhereQ_base (q : QueryState) (f : String) (v : WhereVal) :
    (orWhereQ q f v).appliedOnBase = q.appliedOnBase := rfl

theorem orWhereQ_wheres (q : QueryState) (f : String) (v : WhereVal) :
    (orWhereQ q f v).wheres = q.wheres ++ [⟨f, v, .or⟩] := rfl

theorem isIdfilterable_field {q : QueryState} {f : String}
    (h : isIdfilterable q f = true) : f = modelPrimaryKey := by
  rw [isIdfilterable, Bool.and_eq_true] at h
  simpa using h.1

theorem whereQ_idFilter_pos {q : QueryState} {f : String} (v : WhereVal)
    (h : isIdfilterable q f = true) :
    (whereQ q f v).idFilter = (setIdFilter q v).idFilter := by
  rw [whereQ]
  simp [h]

theorem whereQ_idFilter_neg {q : QueryState} {f : String} (v : WhereVal)
    (h : ¬ isIdfilterable q f = true) :
    (whereQ q f v).idFilter = q.idFilter := by
  rw [whereQ]
  simp [h]

theorem setIdFilter_idFilter_none {q : QueryState} (v : WhereVal)
    (h : q.idFilter = none) :
    (setIdFilter q v).idFilter = some (jsSet (valuesOf v)) := by
  simp [setIdFilter, h]

theorem setIdFilter_idFilter_some {q : QueryState} (v : WhereVal) {s : List Nat}
    (h : q.idFilter = some s) :
    (setIdFilter q v).idFilter
      = some (jsSet ((valuesOf v).filter (fun x => s.contains x))) := by
  simp [setIdFilter, h]

theorem matchW_pk (r : Rec) (v : WhereVal) (t : WhereBoolTag) :
    matchW r ⟨modelPrimaryKey, v, t⟩ = true ↔ r.id ∈ valuesOf v := by
  cases v with
  | one k => simp [matchW, getFieldVal, modelPrimaryKey, valuesOf]
  | many vs => simp [matchW, getFieldVal, modelPrimaryKey, valuesOf]

theorem andClauses_append_or (ws : List WhereClause) (f : String) (v : WhereVal) :
    andClauses (ws ++ [⟨f, v, .or⟩]) = andClauses ws := by
  rw [andClauses, List.filter_append]
  simp [andClauses, show (WhereBoolTag.or == WhereBoolTag.and) = false from rfl]

theorem andClauses_append_and (ws : List WhereClause) (f : String) (v : WhereVal) :
    andClauses (ws ++ [⟨f, v, .and⟩]) = andClauses ws ++ [⟨f, v, .and⟩] := by
  rw [andClauses, List.filter_append]
  simp [andClauses, show (WhereBoolTag.and == WhereBoolTag.and) = true from rfl]

theorem foldl_applyOp_joined : ∀ (ops : List ChainOp) (q : QueryState),
    (ops.foldl applyOp q).joinedIdFilter = q.joinedIdFilter := by
  intro ops
  induction ops with
  | nil => intro q; rfl
  | cons op t ih =>
    intro q
    rw [List.foldl_cons, ih]
    cases op with
    | whereOp f v => rw [applyOp, whereQ_joined]
    | orWhereOp f v => rfl

theorem foldl_applyOp_base : ∀ (ops : List ChainOp) (q : QueryState),
    (ops.foldl applyOp q).appliedOnBase = q.appliedOnBase := by
  intro ops
  induction ops with
  | nil => intro q; rfl
  | cons op t ih =>
    intro q
    rw [List.foldl_cons, ih]
    cases op with
    | whereOp f v => rw [applyOp, whereQ_base]
    | orWhereOp f v => rfl

theorem foldl_applyOp_cancel_true : ∀ (ops : List ChainOp) (q : QueryState),
    q.cancelIdFilter = true → (ops.foldl applyOp q).cancelIdFilter = true := by
  intro ops
  induction ops with
  | nil => intro q h; exact h
  | cons op t ih =>
    intro q h
    rw [List.foldl_cons]
    apply ih
    cases op with
    | whereOp f v => rw [applyOp, whereQ_cancel]; exact h
    | orWhereOp f v => rfl

theorem buildChain_cancel_of_or (ops : List ChainOp) (h : ops.any ChainOp.isOr = true) :
    (buildChain ops).cancelIdFilter = true := by
  rw [buildChain]
  suffices haux : ∀ (ops' : List ChainOp) (q : QueryState), ops'.any ChainOp.isOr = true →
      (ops'.foldl applyOp q).cancelIdFilter = true from haux ops initQuery h
  intro ops'
  induction ops' with
  | nil => intro q h'; simp at h'
  | cons op t ih =>
    intro q h'
    rw [List.foldl_cons]
    rw [List.any_cons] at h'
    cases op with
    | orWhereOp f v =>
      apply foldl_applyOp_cancel_true
      rfl
    | whereOp f v =>
      simp only [ChainOp.isOr, Bool.false_or] at h'
      exact ih _ h'

theorem inv_initQuery : IdFilterInv initQuery := by
  intro s hs
  simp [initQuery] at hs

theorem inv_applyOp {q : QueryState} (op : ChainOp) (hq : IdFilterInv q) :
    IdFilterInv (applyOp q op) := by
  cases op with
  | orWhereOp f v =>
    intro s hs
    simp only [applyOp] at hs ⊢
    rw [orWhereQ_wheres, andClauses_append_or]
    exact hq s hs
  | whereOp f v =>
    intro s hs
    simp only [applyOp] at hs ⊢
    rw [whereQ_wheres]
    by_cases hfil : isIdfilterable q f = true
    · have hf : f = modelPrimaryKey := isIdfilterable_field hfil
      subst hf
      rw [andClauses_append_and]
      refine ⟨by simp, ?_⟩
      intro r hall
      simp only [List.all_append, Bool.and_eq_true, List.all_cons, List.all_nil,
        Bool.and_true] at hall
      obtain ⟨hallw, hcl⟩ := hall
      have hrv : r.id ∈ valuesOf v := (matchW_pk r v _).mp hcl
      rw [whereQ_idFilter_pos v hfil] at hs
      cases hqf : q.idFilter with
      | none =>
        rw [setIdFilter_idFilter_none v hqf] at hs
        injection hs with hs
        subst hs
        simpa using hrv
      | some s0 =>
        rw [setIdFilter_idFilter_some v hqf] at hs
        injection hs with hs
        subst hs
        have hr0 : r.id ∈ s0 := (hq s0 hqf).2 r hallw
        simp [List.mem_filter, hrv, hr0]
    · rw [whereQ_idFilter_neg v hfil] at hs
      obtain ⟨h1, h2⟩ := hq s hs
      rw [andClauses_append_and]
      refine ⟨by simp, ?_⟩
      intro r hall
      simp only [List.all_append, Bool.and_eq_true] at hall
      exact h2 r hall.1

theorem inv_foldl : ∀ (ops : List ChainOp) (q : QueryState),
    IdFilterInv q → IdFilterInv (ops.foldl applyOp q) := by
  intro ops
  induction ops with
  | nil => intro q hq; exact hq
  | cons op t ih =>
    intro q hq
    rw [List.foldl_cons]
    exact ih _ (inv_applyOp op hq)

theorem inv_buildChain (ops : List ChainOp) : IdFilterInv (buildChain ops) :=
  inv_foldl ops initQuery inv_initQuery

theorem whereMatches_append_pk_and (ws : List WhereClause) (s : List Nat) (r : Rec)
    (hne : andClauses ws ≠ [])
    (himp : (andClauses ws).all (matchW r) = true → r.id ∈ s) :
    whereMatches (ws ++ [⟨modelPrimaryKey, .many s, .and⟩]) r = whereMatches ws r := by
  have hne' : ws.filter (fun w => w.boolTag == WhereBoolTag.and) ≠ [] := hne
  have hwsne : ws.isEmpty = false := by
    cases ws with
    | nil => exact absurd rfl hne
    | cons a t => rfl
  have happne : (ws ++ [(⟨modelPrimaryKey, .many s, .and⟩ : WhereClause)]).isEmpty
      = false := by
    cases ws <;> rfl
  have e1 : (ws.filter (fun w => w.boolTag == WhereBoolTag.and)).isEmpty = false := by
    cases hA : ws.filter (fun w => w.boolTag == WhereBoolTag.and) with
    | nil => exact absurd hA hne'
    | cons a t => rfl
  have e2 : ((ws ++ [(⟨modelPrimaryKey, .many s, .and⟩ : WhereClause)]).filter
      (fun w => w.boolTag == WhereBoolTag.and)).isEmpty = false := by
    rw [List.filter_append]
    cases ws.filter (fun w => w.boolTag == WhereBoolTag.and) <;> rfl
  rw [whereMatches, whereMatches]
  rw [if_neg (by simp [happne]), if_neg (by simp [hwsne])]
  have hands : (ws ++ [(⟨modelPrimaryKey, .many s, .and⟩ : WhereClause)]).filter
        (fun w => w.boolTag == WhereBoolTag.and)
      = ws.filter (fun w => w.boolTag == WhereBoolTag.and)
        ++ [⟨modelPrimaryKey, .many s, .and⟩] := by
    rw [List.filter_append]
    rfl
  have hors : (ws ++ [(⟨modelPrimaryKey, .many s, .and⟩ : WhereClause)]).filter
        (fun w => w.boolTag == WhereBoolTag.or)
      = ws.filter (fun w => w.boolTag == WhereBoolTag.or) := by
    rw [List.filter_append]
    simp [show (WhereBoolTag.and == WhereBoolTag.or) = false from rfl]
  simp only [hands, hors]
  by_cases hall : (ws.filter (fun w => w.boolTag == WhereBoolTag.and)).all (matchW r)
      = true
  · have hrs : r.id ∈ s := himp hall
    have hcl : matchW r ⟨modelPrimaryKey, .many s, .and⟩ = true := by
      rw [matchW_pk]
      simpa [valuesOf] using hrs
    rw [List.all_append]
    simp [hall, hcl, e1]
  · rw [List.all_append]
    simp [hall]

theorem filterMap_id_map_some {α : Type} (g : α → Rec) (l : List α) :
    (l.map (fun a => some (g a))).filterMap (fun x => x) = l.map g := by
  induction l with
  | nil => rfl
  | cons x t ih => simp [List.filterMap_cons, ih]

theorem map_lookup_hydrate (dflt : Rec) :
    ∀ (tbl : Table), (tbl.map Prod.fst).Nodup →
      (tbl.map Prod.fst).map (fun id =>
          match objLookup id tbl with
          | some m => m
          | none => dflt) = tbl.map Prod.snd := by
  intro tbl
  induction tbl with
  | nil => intro _; rfl
  | cons kv t ih =>
    intro hnd
    have hnotin : kv.1 ∉ t.map Prod.fst := by
      rw [List.map_cons, List.nodup_cons] at hnd
      exact hnd.1
    have hndt : (t.map Prod.fst).Nodup := by
      rw [List.map_cons, List.nodup_cons] at hnd
      exact hnd.2
    rw [List.map_cons, List.map_cons, List.map_cons]
    have hhead : objLookup kv.1 (kv :: t) = some kv.2 := by
      cases kv
      rw [objLookup]
      simp
    rw [hhead]
    congr 1
    have hcong : ∀ id ∈ t.map Prod.fst,
        (fun id => match objLookup id (kv :: t) with | some m => m | none => dflt) id
          = (fun id => match objLookup id t with | some m => m | none => dflt) id := by
      intro id hid
      have hne : kv.1 ≠ id := fun he => hnotin (he ▸ hid)
      have hlk : objLookup id (kv :: t) = objLookup id t := by
        cases kv
        rw [objLookup]
        simp only at hne
        rw [if_neg hne]
      simp only [hlk]
    rw [List.map_congr_left hcong]
    exact ih hndt

theorem recordsOf_full (dflt : Rec) (instOf : Rec → Bool) (q : QueryState) (tbl : Table)
    (hid : q.idFilter = none) (hj : q.joinedIdFilter = none) (hb : q.appliedOnBase = true)
    (hnd : (tbl.map Prod.fst).Nodup) :
    recordsOf dflt instOf q tbl = tbl.map Prod.snd := by
  rw [recordsOf]
  have hids : getIdsToLookup q tbl = tbl.map Prod.fst := by
    simp [getIdsToLookup, hid, hj]
  rw [hids]
  have hfun : ((tbl.map Prod.fst).map (fun id =>
      let hydrated := match objLookup id tbl with | some m => m | none => dflt
      if !q.appliedOnBase && !instOf hydrated then none else some hydrated))
      = ((tbl.map Prod.fst).map (fun id =>
          some (match objLookup id tbl with | some m => m | none => dflt))) := by
    apply List.map_congr_left
    intro id _
    simp [hb]
  rw [hfun, filterMap_id_map_some, map_lookup_hydrate dflt tbl hnd]

theorem finalize_none {q : QueryState} (h : q.idFilter = none) :
    finalizeIdFilter q = q := by
  simp [finalizeIdFilter, h]

theorem finalize_some_cancel {q : QueryState} {s : List Nat}
    (hs : q.idFilter = some s) (hc : q.cancelIdFilter = true) :
    finalizeIdFilter q
      = { (whereQ q modelPrimaryKey (.many s)) with idFilter := none } := by
  simp [finalizeIdFilter, hs, hc]

/-- C4: a query chain on the primary key containing any `orWhere` is
evaluated as a full-table scan filtered by the equivalent boolean
where-expression of the chain's own clauses — index usage never changes the
logical result; the accumulated `idFilter` values are re-expressed as a
membership where-clause before the index is discarded; and the spec's example
`where("id",1).orWhere("id",2).get()` on the two-row table returns both
records. -/
theorem orWhere_full_scan_equivalence :
    (∀ (dflt : Rec) (instOf : Rec → Bool) (ops : List ChainOp) (tbl : Table),
        (tbl.map Prod.fst).Nodup → ops.any ChainOp.isOr = true →
        getQ dflt instOf (buildChain ops) tbl = fullScanSelect (buildChain ops) tbl) ∧
    (∀ (q : QueryState) (s : List Nat), q.idFilter = some s → q.cancelIdFilter = true →
        (finalizeIdFilter q).wheres = q.wheres ++ [⟨modelPrimaryKey, .many s, .and⟩] ∧
        (finalizeIdFilter q).idFilter = none) ∧
    getQ ⟨0, "", 0⟩ (fun _ => true)
        (buildChain [.whereOp "id" (.one 1), .orWhereOp "id" (.one 2)])
        [(1, ⟨1, "a", 1⟩), (2, ⟨2, "b", 2⟩)]
      = [⟨1, "a", 1⟩, ⟨2, "b", 2⟩] := by
  refine ⟨?_, ?_, rfl⟩
  · intro dflt instOf ops tbl hnd hor
    have hcancel : (buildChain ops).cancelIdFilter = true := buildChain_cancel_of_or ops hor
    have hjoin : (buildChain ops).joinedIdFilter = none := by
      rw [buildChain, foldl_applyOp_joined]
      rfl
    have hbase : (buildChain ops).appliedOnBase = true := by
      rw [buildChain, foldl_applyOp_base]
      rfl
    simp only [getQ, selectQ, fullScanSelect]
    cases hif : (buildChain ops).idFilter with
    | none =>
      rw [finalize_none hif]
      rw [recordsOf_full dflt instOf _ tbl hif hjoin hbase hnd]
      simp only [filterWhere]
    | some s =>
      rw [finalize_some_cancel hif hcancel]
      rw [recordsOf_full dflt instOf _ tbl rfl (by simp [hjoin]) (by simp [hbase]) hnd]
      simp only [filterWhere, filterLimit, whereQ_offset, whereQ_limit]
      rw [show ({ (whereQ (buildChain ops) modelPrimaryKey (.many s)) with
            idFilter := none } : QueryState).wheres
          = (buildChain ops).wheres ++ [⟨modelPrimaryKey, .many s, .and⟩] from
        whereQ_wheres (buildChain ops) modelPrimaryKey (.many s)]
      obtain ⟨hne, himp⟩ := inv_buildChain ops s hif
      rw [List.filter_congr (fun r _ =>
        whereMatches_append_pk_and (buildChain ops).wheres s r hne (himp r))]
  · intro q s hs hc
    rw [finalize_some_cancel hs hc]
    exact ⟨whereQ_wheres q modelPrimaryKey (.many s), rfl⟩

/-- Witness for C4 at the spec's example chain and table. -/
theorem orWhere_full_scan_equivalence_witness :
    getQ ⟨0, "", 0⟩ (fun _ => true)
        (buildChain [.whereOp "id" (.one 1), .orWhereOp "id" (.one 2)])
        [(1, ⟨1, "a", 1⟩), (2, ⟨2, "b", 2⟩)]
      = fullScanSelect (buildChain [.whereOp "id" (.one 1), .orWhereOp "id" (.one 2)])
          [(1, ⟨1, "a", 1⟩), (2, ⟨2, "b", 2⟩)] :=
  orWhere_full_scan_equivalence.1 ⟨0, "", 0⟩ (fun _ => true)
    [.whereOp "id" (.one 1), .orWhereOp "id" (.one 2)]
    [(1, ⟨1, "a", 1⟩), (2, ⟨2, "b", 2⟩)] (by decide) (by decide)

end VuexOrm
